import Mathlib

/-!
Shallow embedding of `src/transcriber.py` (youtube-audio-transcriber).

Strings are modelled as `List Char`; the Python string primitives used by the
source (`str.strip`, `str.splitlines`, `str.isdigit`, `str.replace` with
one-character arguments, `str.lower`, the `in` substring test, slicing
`s[:n]`, and the two regular expressions `<[^>]+>` and `_+` that the source
applies with `re.sub`) are given executable Lean definitions with the same
behaviour.  The functions `vtt_to_plaintext`, `sanitize_filename` and the
response shaping of the `/api/get_youtube_details` route are translated
line by line from the source.
-/

/-- Whitespace test used by Python `str.strip()` (ASCII whitespace). -/
def pyIsSpace (c : Char) : Bool :=
  c = ' ' || c = '\t' || c = '\n' || c = '\r' || c = '\x0b' || c = '\x0c'

/-- Python `line.strip()`: drop leading and trailing whitespace. -/
def pyStrip (l : List Char) : List Char :=
  ((l.dropWhile pyIsSpace).reverse.dropWhile pyIsSpace).reverse

/-- Does `l` start with `p`?  (Helper for the Python `in` substring test.) -/
def startsWithL : List Char → List Char → Bool
  | [], _ => true
  | _ :: _, [] => false
  | a :: p, b :: l => a == b && startsWithL p l

/-- Python substring test `needle in hay`. -/
def pyIn (needle : List Char) : List Char → Bool
  | [] => needle.isEmpty
  | c :: rest => startsWithL needle (c :: rest) || pyIn needle rest

/-- Python `str.isdigit()`: non-empty and all decimal digits. -/
def pyIsdigit (l : List Char) : Bool :=
  !l.isEmpty && l.all (fun c => c.isDigit)

/-- Python `s.replace(old, new)` for one-character `old` and `new`. -/
def pyReplaceChar (old new : Char) (l : List Char) : List Char :=
  l.map (fun c => if c = old then new else c)

/-- Worker for Python `str.splitlines()`; `acc` holds the current line
reversed.  Line boundaries modelled: `\n`, `\r\n` and `\r`. -/
def pySplitlinesGo : List Char → List Char → List (List Char)
  | [], acc => [acc.reverse]
  | '\r' :: '\n' :: rest, acc =>
    acc.reverse :: (if rest.isEmpty then [] else pySplitlinesGo rest [])
  | '\r' :: rest, acc =>
    acc.reverse :: (if rest.isEmpty then [] else pySplitlinesGo rest [])
  | '\n' :: rest, acc =>
    acc.reverse :: (if rest.isEmpty then [] else pySplitlinesGo rest [])
  | c :: rest, acc => pySplitlinesGo rest (c :: acc)

/-- Python `str.splitlines()` (no trailing empty line for a trailing
terminator, and the empty string yields no lines). -/
def pySplitlines (l : List Char) : List (List Char) :=
  if l.isEmpty then [] else pySplitlinesGo l []

/-- One left-to-right pass of `re.sub(r'<[^>]+>', '', line)`.  The `Option`
argument is `none` outside a candidate tag and `some buf` after an
unmatched `<`, where `buf` holds (reversed) the characters seen since. -/
def rtAux : List Char → Option (List Char) → List Char
  | [], none => []
  | [], some buf => '<' :: buf.reverse
  | c :: rest, none =>
    if c = '<' then rtAux rest (some []) else c :: rtAux rest none
  | c :: rest, some buf =>
    if c = '>' then
      if buf.isEmpty then '<' :: '>' :: rtAux rest none else rtAux rest none
    else rtAux rest (some (c :: buf))

/-- Removal of VTT tags: `re.sub(r'<[^>]+>', '', line_stripped)`. -/
def removeTags (l : List Char) : List Char :=
  rtAux l none

/-- Cleaning of a dialogue line, from `vtt_to_plaintext`: tag removal
followed by the source's three (self-mapping) `replace` calls
`.replace('&', '&').replace('<', '<').replace('>', '>')`. -/
def cleanLine (l : List Char) : List Char :=
  pyReplaceChar '>' '>' (pyReplaceChar '<' '<' (pyReplaceChar '&' '&' (removeTags l)))

/-- The timestamp-range token `-->`. -/
def arrowToken : List Char := ['-', '-', '>']

/-- One loop iteration of `vtt_to_plaintext`: given the `in_dialogue_block`
flag and the raw line, produce the new flag and the emitted line, if any. -/
def vttStep (inD : Bool) (line : List Char) : Bool × Option (List Char) :=
  let ls := pyStrip line
  if ls.isEmpty then (false, none)
  else if pyIn arrowToken ls then (true, none)
  else if pyIsdigit ls && !inD then (inD, none)
  else if inD then
    let c := cleanLine ls
    (inD, if c.isEmpty then none else some c)
  else (inD, none)

/-- The loop of `vtt_to_plaintext` over all lines, accumulating the
emitted dialogue lines in order. -/
def processLines : Bool → List (List Char) → List (List Char)
  | _, [] => []
  | inD, l :: rest =>
    match (vttStep inD l).2 with
    | none => processLines (vttStep inD l).1 rest
    | some c => c :: processLines (vttStep inD l).1 rest

/-- Translation of `vtt_to_plaintext` (src/transcriber.py lines 40-64). -/
def vtt_to_plaintext (s : String) : String :=
  String.intercalate "\n" ((processLines false (pySplitlines s.data)).map (fun l => String.mk l))

/-- Character filter of `sanitize_filename`: keep alphanumerics, `-` and
`_`, replace everything else by `_`. -/
def sanitizeChar (c : Char) : Char :=
  if c.isAlphanum || c = '-' || c = '_' then c else '_'

/-- One pass of `re.sub(r'_+', '_', s)`: collapse each run of underscores
to a single underscore.  The flag records whether the previous input
character was an underscore. -/
def collapseU : Bool → List Char → List Char
  | _, [] => []
  | prevU, c :: rest =>
    if c = '_' then
      if prevU then collapseU true rest else '_' :: collapseU true rest
    else c :: collapseU false rest

/-- Python `s.strip(ch)` for a single strip character. -/
def pyStripChar (ch : Char) (l : List Char) : List Char :=
  ((l.dropWhile (fun c => c = ch)).reverse.dropWhile (fun c => c = ch)).reverse

/-- Python slicing `s[:n]` for an arbitrary integer `n` (a negative `n`
counts from the end of the string). -/
def pySlicePrefix (n : Int) (l : List Char) : List Char :=
  if 0 ≤ n then l.take n.toNat else l.take (l.length - (-n).toNat)

/-- Translation of `sanitize_filename` (src/transcriber.py lines 32-38);
the source's default for `maxLength` is 60. -/
def sanitize_filename (name : List Char) (maxLength : Int) : List Char :=
  let s1 := pyReplaceChar ' ' '_' name
  let s2 := s1.map sanitizeChar
  let s3 := collapseU false s2
  let s4 := pyStripChar '_' s3
  pySlicePrefix maxLength s4

/-- Does the list contain two consecutive underscores? -/
def hasDoubleUnderscore : List Char → Bool
  | [] => false
  | [_] => false
  | a :: b :: rest => (a = '_' && b = '_') || hasDoubleUnderscore (b :: rest)

/-- Python `str.lower()` on one character (ASCII range, as exercised by the
URL literals of the route; Unicode lowercasing likewise never produces an
ASCII uppercase letter). -/
def pyLowerChar (c : Char) : Char :=
  Char.toLower c

/-- Python `url.lower()`. -/
def pyLower (l : List Char) : List Char :=
  l.map pyLowerChar

/-- Is the character an ASCII uppercase letter? -/
def isAsciiUpper (c : Char) : Bool :=
  decide (65 ≤ c.toNat ∧ c.toNat ≤ 90)

/-- Result dictionary of `get_youtube_details_and_transcript`; every field
is initialised to `None` and may be filled with a string. -/
structure YtResult where
  title : Option String
  channel_name : Option String
  transcript_text : Option String
  language_detected : Option String
  error : Option String

/-- Python truthiness of an optional string (`None` and `""` are falsy). -/
def pyTruthyStr : Option String → Bool
  | none => false
  | some s => decide (s ≠ "")

/-- HTTP status chosen by `api_get_youtube_details_route` for a result of
`get_youtube_details_and_transcript` (src/transcriber.py lines 304-318). -/
def detailsStatus (r : YtResult) : Nat :=
  if pyTruthyStr r.error then
    if pyTruthyStr r.title &&
        (pyIn "No subtitles available".data (r.error.getD "").data ||
         pyIn "Transcript VTT file not found".data (r.error.getD "").data) then 206
    else if !pyTruthyStr r.title then 500
    else 500
  else 200

/-- JSON body returned by the route: either an error envelope or the
serialized result dictionary. -/
inductive RouteBody where
  | jsonError : String → RouteBody
  | jsonResult : YtResult → RouteBody

/-- Response of the route once URL validation has passed: the status from
`detailsStatus` and the full result dictionary as body (line 320). -/
def respondDetails (r : YtResult) : Nat × RouteBody :=
  (detailsStatus r, RouteBody.jsonResult r)

/-- URL validation of the route (line 298): the lowercased url must contain
one of two hard-coded mixed-case video-URL literals. -/
def validateYoutubeUrl (url : String) : Bool :=
  pyIn "https://www.youtube.com/watch?v=xqcl9dAAkC0".data (pyLower url.data) ||
  pyIn "https://www.youtube.com/watch?v=tt6_v_LoOZw".data (pyLower url.data)

/-- Translation of `api_get_youtube_details_route` (lines 288-320).  The
external call `get_youtube_details_and_transcript` is abstracted as the
function argument `fetch`. -/
def api_get_youtube_details_route (urlParam : Option String)
    (fetch : String → YtResult) : Nat × RouteBody :=
  match urlParam with
  | none => (400, RouteBody.jsonError "Missing 'url' parameter")
  | some url =>
    if url = "" then (400, RouteBody.jsonError "Missing 'url' parameter")
    else if validateYoutubeUrl url then respondDetails (fetch url)
    else (400, RouteBody.jsonError "Invalid URL; only YouTube URLs are supported by this endpoint.")

/-! Helper lemmas about the Python string primitives. -/

/-- A successful `startsWithL` test is exactly having `p` as initial segment. -/
theorem startsWithL_iff (p : List Char) : ∀ l, startsWithL p l = true ↔ ∃ t, l = p ++ t := by
  induction p with
  | nil => intro l; simp [startsWithL]
  | cons a p ih =>
    intro l
    cases l with
    | nil => simp [startsWithL]
    | cons b l' =>
      simp only [startsWithL, Bool.and_eq_true, beq_iff_eq]
      constructor
      · rintro ⟨rfl, h⟩
        obtain ⟨t, rfl⟩ := (ih l').1 h
        exact ⟨t, rfl⟩
      · rintro ⟨t, h⟩
        injection h with h1 h2
        exact ⟨h1.symm, (ih l').2 ⟨t, h2⟩⟩

/-- The Python `in` test succeeds exactly when the needle occurs inside. -/
theorem pyIn_iff (p : List Char) : ∀ l, pyIn p l = true ↔ ∃ u v, l = u ++ p ++ v := by
  intro l
  induction l with
  | nil =>
    constructor
    · intro h
      have hp : p = [] := List.isEmpty_iff.1 (by simpa [pyIn] using h)
      exact ⟨[], [], by simp [hp]⟩
    · rintro ⟨u, v, h⟩
      obtain ⟨hup, hv⟩ := List.append_eq_nil.1 h.symm
      obtain ⟨hu, hp⟩ := List.append_eq_nil.1 hup
      simp [pyIn, hp]
  | cons c rest ih =>
    simp only [pyIn, Bool.or_eq_true, ih, startsWithL_iff]
    constructor
    · rintro (⟨t, h⟩ | ⟨u, v, h⟩)
      · exact ⟨[], t, by simp [h]⟩
      · exact ⟨c :: u, v, by simp [h]⟩
    · rintro ⟨u, v, h⟩
      cases u with
      | nil => exact Or.inl ⟨v, by simpa using h⟩
      | cons x u' =>
        injection h with h1 h2
        exact Or.inr ⟨u', v, h2⟩

/-- Occurrence inside a middle segment is occurrence in the whole list. -/
theorem pyIn_of_mid {p m u v l : List Char} (hl : l = u ++ m ++ v) (h : pyIn p m = true) :
    pyIn p l = true := by
  obtain ⟨a, b, hm⟩ := (pyIn_iff p m).1 h
  exact (pyIn_iff p l).2 ⟨u ++ a, b ++ v, by simp [hl, hm]⟩

/-- Stripping returns a middle segment of the original line. -/
theorem pyStrip_mid (l : List Char) : ∃ u v, l = u ++ pyStrip l ++ v := by
  refine ⟨l.takeWhile pyIsSpace, ((l.dropWhile pyIsSpace).reverse.takeWhile pyIsSpace).reverse, ?_⟩
  have h2 : ((l.dropWhile pyIsSpace).reverse.takeWhile pyIsSpace) ++
      ((l.dropWhile pyIsSpace).reverse.dropWhile pyIsSpace) = (l.dropWhile pyIsSpace).reverse :=
    List.takeWhile_append_dropWhile ..
  have h3 : pyStrip l ++ ((l.dropWhile pyIsSpace).reverse.takeWhile pyIsSpace).reverse =
      l.dropWhile pyIsSpace := by
    unfold pyStrip
    rw [← List.reverse_append, h2, List.reverse_reverse]
  calc l = l.takeWhile pyIsSpace ++ l.dropWhile pyIsSpace :=
        (List.takeWhile_append_dropWhile pyIsSpace l).symm
    _ = l.takeWhile pyIsSpace ++
        (pyStrip l ++ ((l.dropWhile pyIsSpace).reverse.takeWhile pyIsSpace).reverse) := by
        rw [h3]
    _ = l.takeWhile pyIsSpace ++ pyStrip l ++
        ((l.dropWhile pyIsSpace).reverse.takeWhile pyIsSpace).reverse := by
        rw [List.append_assoc]

/-- Replacing a character by itself changes nothing. -/
theorem pyReplaceChar_self (a : Char) (l : List Char) : pyReplaceChar a a l = l := by
  have h : ∀ c : Char, (if c = a then a else c) = c := by
    intro c
    split
    · exact (by assumption : c = a).symm
    · rfl
  simp [pyReplaceChar, h]

/-- Tag removal is the identity on a line without `<`. -/
theorem rtAux_no_lt (l : List Char) (h : '<' ∉ l) : rtAux l none = l := by
  induction l with
  | nil => rfl
  | cons c rest ih =>
    have hc : ¬c = '<' := fun hc => h (by rw [hc]; exact List.mem_cons_self _ _)
    have hr : '<' ∉ rest := fun hr => h (List.mem_cons_of_mem c hr)
    simp [rtAux, hc, ih hr]

/-- The three self-mapping `replace` calls make `cleanLine` plain tag removal. -/
theorem cleanLine_eq_removeTags (l : List Char) : cleanLine l = removeTags l := by
  simp [cleanLine, pyReplaceChar_self]

/-- Cleaning is the identity on a line without `<`. -/
theorem cleanLine_no_lt (l : List Char) (h : '<' ∉ l) : cleanLine l = l := by
  rw [cleanLine_eq_removeTags]
  exact rtAux_no_lt l h

/-! Branch lemmas for `vttStep` and structure lemmas for `processLines`. -/

/-- A line that strips to nothing closes the dialogue block and emits nothing. -/
theorem vttStep_blank (inD : Bool) (l : List Char) (h : pyStrip l = []) :
    vttStep inD l = (false, none) := by
  simp [vttStep, h]

/-- A line containing `-->` opens the dialogue block and emits nothing. -/
theorem vttStep_arrow (inD : Bool) (l : List Char)
    (h : pyIn arrowToken (pyStrip l) = true) : vttStep inD l = (true, none) := by
  have hne : (pyStrip l).isEmpty = false := by
    cases hs : pyStrip l
    · rw [hs] at h
      simp [pyIn, arrowToken] at h
    · simp
  simp [vttStep, hne, h]

/-- A digits-only line outside a dialogue block is dropped. -/
theorem vttStep_digit_noD (l : List Char)
    (ha : pyIn arrowToken (pyStrip l) = false) (hd : pyIsdigit (pyStrip l) = true) :
    vttStep false l = (false, none) := by
  have hne : (pyStrip l).isEmpty = false := by
    cases hs : pyStrip l
    · rw [hs] at hd
      simp [pyIsdigit] at hd
    · simp
  simp [vttStep, hne, ha, hd]

/-- Any other line outside a dialogue block is silently ignored. -/
theorem vttStep_outside (l : List Char)
    (ha : pyIn arrowToken (pyStrip l) = false) (hd : pyIsdigit (pyStrip l) = false)
    (hne : pyStrip l ≠ []) : vttStep false l = (false, none) := by
  have hne' : (pyStrip l).isEmpty = false := by
    cases hs : pyStrip l
    · exact absurd hs hne
    · simp
  simp [vttStep, hne', ha, hd]

/-- Inside a dialogue block, a non-timestamp line whose cleanup is non-empty
is emitted (even when it is digits-only). -/
theorem vttStep_inD_emit (l : List Char)
    (ha : pyIn arrowToken (pyStrip l) = false) (hne : pyStrip l ≠ [])
    (hc : cleanLine (pyStrip l) ≠ []) :
    vttStep true l = (true, some (cleanLine (pyStrip l))) := by
  have hne' : (pyStrip l).isEmpty = false := by
    cases hs : pyStrip l
    · exact absurd hs hne
    · simp
  have hc' : (cleanLine (pyStrip l)).isEmpty = false := by
    cases hs : cleanLine (pyStrip l)
    · exact absurd hs hc
    · simp
  simp [vttStep, hne', ha, hc']

/-- Inside a dialogue block, a line whose cleanup is empty is dropped. -/
theorem vttStep_inD_drop (l : List Char)
    (ha : pyIn arrowToken (pyStrip l) = false) (hne : pyStrip l ≠ [])
    (hc : cleanLine (pyStrip l) = []) :
    vttStep true l = (true, none) := by
  have hne' : (pyStrip l).isEmpty = false := by
    cases hs : pyStrip l
    · exact absurd hs hne
    · simp
  simp [vttStep, hne', ha, hc]

/-- Whatever the step emits is the cleanup of the stripped line, is
non-empty, and comes from a line without the `-->` token. -/
theorem vttStep_spec (inD : Bool) (l : List Char) :
    (vttStep inD l).2 = none ∨
    ((vttStep inD l).2 = some (cleanLine (pyStrip l)) ∧ cleanLine (pyStrip l) ≠ [] ∧
      pyIn arrowToken (pyStrip l) = false) := by
  by_cases h1 : (pyStrip l).isEmpty = true
  · left
    simp [vttStep, h1]
  · by_cases h2 : pyIn arrowToken (pyStrip l) = true
    · left
      rw [vttStep_arrow inD l h2]
    · have h2' : pyIn arrowToken (pyStrip l) = false := by
        cases hx : pyIn arrowToken (pyStrip l)
        · rfl
        · exact absurd hx h2
      by_cases h3 : (pyIsdigit (pyStrip l) && !inD) = true
      · left
        simp [vttStep, h1, h2', h3]
      · cases inD with
        | false =>
          left
          simp [vttStep, h1, h2']
        | true =>
          by_cases h4 : (cleanLine (pyStrip l)).isEmpty = true
          · left
            simp [vttStep, h1, h2', h4]
          · right
            have h4' : cleanLine (pyStrip l) ≠ [] := by
              intro hx
              exact h4 (by simp [hx])
            refine ⟨?_, h4', h2'⟩
            rw [vttStep_inD_emit l h2' (by intro hx; exact h1 (by simp [hx])) h4']

/-- Unfolding `processLines` when the step emits nothing. -/
theorem processLines_cons_none (inD : Bool) (l : List Char) (rest : List (List Char))
    (h : (vttStep inD l).2 = none) :
    processLines inD (l :: rest) = processLines (vttStep inD l).1 rest := by
  simp [processLines, h]

/-- Unfolding `processLines` when the step emits a line. -/
theorem processLines_cons_some (inD : Bool) (l : List Char) (rest : List (List Char))
    (c : List Char) (h : (vttStep inD l).2 = some c) :
    processLines inD (l :: rest) = c :: processLines (vttStep inD l).1 rest := by
  simp [processLines, h]

/-- No emitted line is empty. -/
theorem processLines_ne_nil (inD : Bool) (lines : List (List Char)) :
    ∀ out ∈ processLines inD lines, out ≠ [] := by
  induction lines generalizing inD with
  | nil => intro out h; simp [processLines] at h
  | cons l rest ih =>
    intro out hout
    cases h : (vttStep inD l).2 with
    | none =>
      rw [processLines_cons_none _ _ _ h] at hout
      exact ih _ out hout
    | some c =>
      rw [processLines_cons_some _ _ _ _ h] at hout
      rcases List.mem_cons.1 hout with rfl | h'
      · rcases vttStep_spec inD l with h2 | ⟨h2, h3, _⟩
        · rw [h] at h2
          exact absurd h2 (by simp)
        · have hc := Option.some.inj (h.symm.trans h2)
          rw [hc]
          exact h3
      · exact ih _ out h'

/-- The emitted lines form a sublist of the per-line cleanups, in order. -/
theorem processLines_sublist (inD : Bool) (lines : List (List Char)) :
    (processLines inD lines).Sublist (lines.map (fun l => cleanLine (pyStrip l))) := by
  induction lines generalizing inD with
  | nil => simp [processLines]
  | cons l rest ih =>
    cases h : (vttStep inD l).2 with
    | none =>
      rw [processLines_cons_none _ _ _ h]
      exact List.Sublist.cons _ (ih _)
    | some c =>
      rw [processLines_cons_some _ _ _ _ h]
      have hc : c = cleanLine (pyStrip l) := by
        rcases vttStep_spec inD l with h2 | ⟨h2, _, _⟩
        · rw [h] at h2
          exact absurd h2 (by simp)
        · exact Option.some.inj (h.symm.trans h2)
      rw [hc]
      simp only [List.map_cons]
      exact List.Sublist.cons₂ _ (ih _)

/-- Every emitted line is the cleanup of the stripped form of some input
line that does not contain the `-->` token. -/
theorem processLines_src (inD : Bool) (lines : List (List Char)) :
    ∀ out ∈ processLines inD lines,
      ∃ src ∈ lines, out = cleanLine (pyStrip src) ∧ pyIn arrowToken (pyStrip src) = false := by
  induction lines generalizing inD with
  | nil => intro out h; simp [processLines] at h
  | cons l rest ih =>
    intro out hout
    cases h : (vttStep inD l).2 with
    | none =>
      rw [processLines_cons_none _ _ _ h] at hout
      obtain ⟨src, hs, h1, h2⟩ := ih _ out hout
      exact ⟨src, List.mem_cons_of_mem _ hs, h1, h2⟩
    | some c =>
      rw [processLines_cons_some _ _ _ _ h] at hout
      rcases List.mem_cons.1 hout with rfl | h'
      · rcases vttStep_spec inD l with h2 | ⟨h2, _, h4⟩
        · rw [h] at h2
          exact absurd h2 (by simp)
        · exact ⟨l, List.mem_cons_self _ _, Option.some.inj (h.symm.trans h2), h4⟩
      · obtain ⟨src, hs, h1, h2⟩ := ih _ out h'
        exact ⟨src, List.mem_cons_of_mem _ hs, h1, h2⟩

/-- Without a timestamp line the dialogue flag never becomes true and
nothing is ever emitted. -/
theorem processLines_no_arrow (lines : List (List Char))
    (h : ∀ l ∈ lines, pyIn arrowToken (pyStrip l) = false) :
    processLines false lines = [] := by
  induction lines with
  | nil => simp [processLines]
  | cons l rest ih =>
    have hl := h l (List.mem_cons_self _ _)
    have hstep : vttStep false l = (false, none) := by
      by_cases h1 : pyStrip l = []
      · exact vttStep_blank _ _ h1
      · by_cases h2 : pyIsdigit (pyStrip l) = true
        · exact vttStep_digit_noD _ hl h2
        · exact vttStep_outside _ hl (by
            cases hx : pyIsdigit (pyStrip l)
            · rfl
            · exact absurd hx h2) h1
    have h2' : (vttStep false l).2 = none := by rw [hstep]
    rw [processLines_cons_none _ _ _ h2', hstep]
    exact ih (fun l' hl' => h l' (List.mem_cons_of_mem _ hl'))

/-- Inside an open dialogue block, consecutive good lines are all emitted
in order, and the following blank line closes the block. -/
theorem processLines_dialogue (ls rest : List (List Char))
    (h : ∀ l ∈ ls, pyIn arrowToken (pyStrip l) = false ∧ cleanLine (pyStrip l) ≠ []) :
    processLines true (ls ++ [[]] ++ rest) =
      ls.map (fun l => cleanLine (pyStrip l)) ++ processLines false rest := by
  induction ls with
  | nil =>
    simp only [List.nil_append, List.map_nil, List.singleton_append]
    have hb : vttStep true ([] : List Char) = (false, none) := vttStep_blank _ _ rfl
    have h2' : (vttStep true ([] : List Char)).2 = none := by rw [hb]
    rw [processLines_cons_none _ _ _ h2', hb]
  | cons l ls' ih =>
    obtain ⟨ha, hc⟩ := h l (List.mem_cons_self _ _)
    have hne : pyStrip l ≠ [] := fun he => hc (by rw [he]; rfl)
    have hstep := vttStep_inD_emit l ha hne hc
    have h2' : (vttStep true l).2 = some (cleanLine (pyStrip l)) := by rw [hstep]
    have hrec := ih (fun l' hl' => h l' (List.mem_cons_of_mem _ hl'))
    calc processLines true ((l :: ls') ++ [[]] ++ rest)
        = cleanLine (pyStrip l) :: processLines (vttStep true l).1 (ls' ++ [[]] ++ rest) :=
          processLines_cons_some _ _ _ _ h2'
      _ = cleanLine (pyStrip l) :: processLines true (ls' ++ [[]] ++ rest) := by rw [hstep]
      _ = cleanLine (pyStrip l) :: (ls'.map (fun l => cleanLine (pyStrip l)) ++ processLines false rest) := by
          rw [hrec]
      _ = (l :: ls').map (fun l => cleanLine (pyStrip l)) ++ processLines false rest := by
          simp

/-! Lemmas for `sanitize_filename`. -/

/-- Characterization of containing a double underscore. -/
theorem hasDouble_iff : ∀ l : List Char,
    hasDoubleUnderscore l = true ↔ ∃ u v, l = u ++ '_' :: '_' :: v := by
  intro l
  induction l with
  | nil =>
    constructor
    · intro h
      simp [hasDoubleUnderscore] at h
    · rintro ⟨u, v, h⟩
      exact absurd h.symm (by simp)
  | cons a t ih =>
    cases t with
    | nil =>
      constructor
      · intro h
        simp [hasDoubleUnderscore] at h
      · rintro ⟨u, v, h⟩
        have hlen := congrArg List.length h
        simp [List.length_append] at hlen
        omega
    | cons b t' =>
      constructor
      · intro h
        simp only [hasDoubleUnderscore, Bool.or_eq_true, Bool.and_eq_true,
          decide_eq_true_eq] at h
        rcases h with ⟨ha, hb⟩ | h1
        · exact ⟨[], t', by rw [ha, hb]; rfl⟩
        · obtain ⟨u, v, huv⟩ := ih.1 h1
          exact ⟨a :: u, v, by simp [huv]⟩
      · rintro ⟨u, v, h⟩
        cases u with
        | nil =>
          simp only [List.nil_append] at h
          injection h with h1 h2
          injection h2 with h2 h3
          simp only [hasDoubleUnderscore, Bool.or_eq_true, Bool.and_eq_true,
            decide_eq_true_eq]
          exact Or.inl ⟨h1, h2⟩
        | cons x u' =>
          injection h with h1 h2
          simp only [hasDoubleUnderscore, Bool.or_eq_true]
          refine Or.inr (ih.2 ⟨u', v, ?_⟩)
          simpa using h2

/-- No double underscore in a list means none in any middle segment. -/
theorem hasDouble_mid (u m v : List Char) (h : hasDoubleUnderscore (u ++ m ++ v) = false) :
    hasDoubleUnderscore m = false := by
  cases hx : hasDoubleUnderscore m
  · rfl
  · obtain ⟨a, b, hab⟩ := (hasDouble_iff m).1 hx
    have hsplit : u ++ m ++ v = (u ++ a) ++ '_' :: '_' :: (b ++ v) := by
      rw [hab]
      simp [List.append_assoc]
    have htrue := (hasDouble_iff (u ++ m ++ v)).2 ⟨u ++ a, b ++ v, hsplit⟩
    rw [htrue] at h
    exact h

/-- Double underscores are stable under reversal. -/
theorem hasDouble_reverse (l : List Char) :
    hasDoubleUnderscore l.reverse = hasDoubleUnderscore l := by
  have key : ∀ m : List Char, hasDoubleUnderscore m = true →
      hasDoubleUnderscore m.reverse = true := by
    intro m hm
    obtain ⟨u, v, huv⟩ := (hasDouble_iff m).1 hm
    refine (hasDouble_iff _).2 ⟨v.reverse, u.reverse, ?_⟩
    rw [huv]
    simp [List.reverse_append]
  cases h : hasDoubleUnderscore l
  · cases h2 : hasDoubleUnderscore l.reverse
    · rfl
    · have h3 := key l.reverse h2
      rw [List.reverse_reverse] at h3
      rw [h] at h3
      exact h3.symm
  · exact key l h

/-- The collapse pass leaves no double underscore, and after an underscore
was just emitted the output cannot begin with another one. -/
theorem collapseU_spec : ∀ (l : List Char) (b : Bool),
    hasDoubleUnderscore (collapseU b l) = false ∧
    (b = true → (collapseU b l).head? ≠ some '_') := by
  intro l
  induction l with
  | nil => intro b; simp [collapseU, hasDoubleUnderscore]
  | cons c rest ih =>
    intro b
    by_cases hc : c = '_'
    · subst hc
      cases b with
      | true =>
        have heq : collapseU true ('_' :: rest) = collapseU true rest := by
          simp [collapseU]
        rw [heq]
        exact ⟨(ih true).1, fun _ => (ih true).2 rfl⟩
      | false =>
        have heq : collapseU false ('_' :: rest) = '_' :: collapseU true rest := by
          simp [collapseU]
        rw [heq]
        constructor
        · cases hX : collapseU true rest with
          | nil => rfl
          | cons x xs =>
            have hx : ¬x = '_' := by
              have hh := (ih true).2 rfl
              rw [hX] at hh
              simpa using hh
            have hXd : hasDoubleUnderscore (x :: xs) = false := by
              have hh := (ih true).1
              rw [hX] at hh
              exact hh
            simp [hasDoubleUnderscore, hx, hXd]
        · intro hcontra
          exact absurd hcontra (by simp)
    · have heq : collapseU b (c :: rest) = c :: collapseU false rest := by
        simp [collapseU, hc]
      rw [heq]
      constructor
      · cases hX : collapseU false rest with
        | nil => rfl
        | cons x xs =>
          have hXd : hasDoubleUnderscore (x :: xs) = false := by
            have hh := (ih false).1
            rw [hX] at hh
            exact hh
          simp [hasDoubleUnderscore, hc, hXd]
      · intro _
        simp [hc]

/-- Characters of the collapse output come from the input. -/
theorem collapseU_subset : ∀ (l : List Char) (b : Bool) (x : Char),
    x ∈ collapseU b l → x ∈ l := by
  intro l
  induction l with
  | nil => intro b x h; simp [collapseU] at h
  | cons c rest ih =>
    intro b x h
    by_cases hc : c = '_'
    · subst hc
      cases b with
      | true =>
        have heq : collapseU true ('_' :: rest) = collapseU true rest := by
          simp [collapseU]
        rw [heq] at h
        exact List.mem_cons_of_mem _ (ih true x h)
      | false =>
        have heq : collapseU false ('_' :: rest) = '_' :: collapseU true rest := by
          simp [collapseU]
        rw [heq] at h
        rcases List.mem_cons.1 h with rfl | h'
        · exact List.mem_cons_self _ _
        · exact List.mem_cons_of_mem _ (ih true x h')
    · have heq : collapseU b (c :: rest) = c :: collapseU false rest := by
        simp [collapseU, hc]
      rw [heq] at h
      rcases List.mem_cons.1 h with rfl | h'
      · exact List.mem_cons_self _ _
      · exact List.mem_cons_of_mem _ (ih false x h')

/-- Membership survives `dropWhile`. -/
theorem mem_of_mem_dropWhile {p : Char → Bool} {l : List Char} {x : Char}
    (h : x ∈ l.dropWhile p) : x ∈ l := by
  rw [← List.takeWhile_append_dropWhile p l]
  exact List.mem_append_right _ h

/-- Membership survives `pyStripChar`. -/
theorem mem_pyStripChar {ch x : Char} {l : List Char} (h : x ∈ pyStripChar ch l) : x ∈ l := by
  unfold pyStripChar at h
  rw [List.mem_reverse] at h
  have h1 := mem_of_mem_dropWhile h
  rw [List.mem_reverse] at h1
  exact mem_of_mem_dropWhile h1

/-- Membership survives `take`. -/
theorem mem_of_mem_take {k : Nat} {l : List Char} {x : Char} (h : x ∈ l.take k) : x ∈ l := by
  rw [← List.take_append_drop k l]
  exact List.mem_append_left _ h

/-- Membership survives slicing. -/
theorem mem_pySlice {n : Int} {l : List Char} {x : Char} (h : x ∈ pySlicePrefix n l) :
    x ∈ l := by
  unfold pySlicePrefix at h
  split at h
  · exact mem_of_mem_take h
  · exact mem_of_mem_take h

/-- A double-underscore-free list stays so after `take`. -/
theorem hasDouble_take (l : List Char) (n : Nat) (h : hasDoubleUnderscore l = false) :
    hasDoubleUnderscore (l.take n) = false := by
  refine hasDouble_mid [] (l.take n) (l.drop n) ?_
  rw [List.nil_append, List.take_append_drop]
  exact h

/-- A double-underscore-free list stays so after `dropWhile`. -/
theorem hasDouble_dropWhile (p : Char → Bool) (l : List Char)
    (h : hasDoubleUnderscore l = false) :
    hasDoubleUnderscore (l.dropWhile p) = false := by
  refine hasDouble_mid (l.takeWhile p) (l.dropWhile p) [] ?_
  rw [List.append_nil, List.takeWhile_append_dropWhile]
  exact h

/-- A double-underscore-free list stays so after `pyStripChar`. -/
theorem hasDouble_pyStripChar (ch : Char) (l : List Char)
    (h : hasDoubleUnderscore l = false) :
    hasDoubleUnderscore (pyStripChar ch l) = false := by
  unfold pyStripChar
  rw [hasDouble_reverse]
  apply hasDouble_dropWhile
  rw [hasDouble_reverse]
  exact hasDouble_dropWhile _ _ h

/-- A double-underscore-free list stays so after slicing. -/
theorem hasDouble_pySlice (n : Int) (l : List Char) (h : hasDoubleUnderscore l = false) :
    hasDoubleUnderscore (pySlicePrefix n l) = false := by
  unfold pySlicePrefix
  split
  · exact hasDouble_take _ _ h
  · exact hasDouble_take _ _ h

/-- The character filter only outputs alphanumerics, `-` and `_`. -/
theorem sanitizeChar_ok (c : Char) :
    ((sanitizeChar c).isAlphanum || sanitizeChar c = '-' || sanitizeChar c = '_') = true := by
  unfold sanitizeChar
  split
  · assumption
  · decide

/-- Every character of a sanitized name is alphanumeric, `-`, or `_`. -/
theorem sanitize_filename_chars (name : List Char) (n : Int) :
    ∀ c ∈ sanitize_filename name n, (c.isAlphanum || c = '-' || c = '_') = true := by
  intro c hc
  simp only [sanitize_filename] at hc
  have h1 := mem_pySlice hc
  have h2 := mem_pyStripChar h1
  have h3 := collapseU_subset _ _ _ h2
  obtain ⟨d, _, rfl⟩ := List.mem_map.1 h3
  exact sanitizeChar_ok d

/-- A sanitized name never contains two consecutive underscores. -/
theorem sanitize_filename_noDouble (name : List Char) (n : Int) :
    hasDoubleUnderscore (sanitize_filename name n) = false := by
  simp only [sanitize_filename]
  apply hasDouble_pySlice
  apply hasDouble_pyStripChar
  exact (collapseU_spec _ false).1

/-- For a non-negative bound the sanitized name respects the bound. -/
theorem sanitize_filename_length (name : List Char) (n : Int) (h : 0 ≤ n) :
    ((sanitize_filename name n).length : Int) ≤ n := by
  have h1 : (sanitize_filename name n).length ≤ n.toNat := by
    simp only [sanitize_filename, pySlicePrefix]
    rw [if_pos h, List.length_take]
    exact Nat.min_le_left _ _
  have h2 : ((sanitize_filename name n).length : Int) ≤ (n.toNat : Int) := by
    exact_mod_cast h1
  rwa [Int.toNat_of_nonneg h] at h2

/-! Lemmas for the URL validation and the status logic of the route. -/

/-- Packing a valid scalar value and reading it back is the identity. -/
theorem toNat_charOfNat (n : Nat) (h : n.isValidChar) : (Char.ofNat n).toNat = n := by
  unfold Char.ofNat
  rw [dif_pos h]
  rfl

/-- Lowercasing never yields an ASCII uppercase letter. -/
theorem pyLowerChar_not_upper (c : Char) : isAsciiUpper (pyLowerChar c) = false := by
  have hform : pyLowerChar c =
      if c.toNat ≥ 65 ∧ c.toNat ≤ 90 then Char.ofNat (c.toNat + 32) else c := rfl
  rw [hform]
  by_cases h : c.toNat ≥ 65 ∧ c.toNat ≤ 90
  · rw [if_pos h]
    have hv : (c.toNat + 32).isValidChar := Or.inl (by omega)
    unfold isAsciiUpper
    rw [toNat_charOfNat _ hv]
    simp only [decide_eq_false_iff_not]
    omega
  · rw [if_neg h]
    unfold isAsciiUpper
    simp only [decide_eq_false_iff_not]
    omega

/-- A needle with an ASCII uppercase character never occurs in a
lowercased string. -/
theorem pyIn_pyLower_false (lit : List Char) (x : Char) (hx : x ∈ lit)
    (hup : isAsciiUpper x = true) (l : List Char) : pyIn lit (pyLower l) = false := by
  cases h : pyIn lit (pyLower l)
  · rfl
  · exfalso
    obtain ⟨u, v, huv⟩ := (pyIn_iff lit (pyLower l)).1 h
    have hxl : x ∈ pyLower l := by
      rw [huv]
      simp [hx]
    simp only [pyLower] at hxl
    obtain ⟨d, _, hd⟩ := List.mem_map.1 hxl
    have hlow := pyLowerChar_not_upper d
    rw [hd] at hlow
    exact Bool.noConfusion (hlow.symm.trans hup)

/-- The route's URL validation rejects every url: both hard-coded literals
contain uppercase letters, which a lowercased string cannot contain. -/
theorem validateYoutubeUrl_false (url : String) : validateYoutubeUrl url = false := by
  unfold validateYoutubeUrl
  rw [pyIn_pyLower_false _ 'A' (by decide) (by decide) url.data,
    pyIn_pyLower_false _ 'L' (by decide) (by decide) url.data]
  rfl

/-- A digits-only string does not contain the `-->` token. -/
theorem pyIsdigit_no_arrow (m : List Char) (hd : pyIsdigit m = true) :
    pyIn arrowToken m = false := by
  cases hx : pyIn arrowToken m
  · rfl
  · obtain ⟨u, v, huv⟩ := (pyIn_iff _ _).1 hx
    have hmem : '-' ∈ m := by
      rw [huv]
      simp [arrowToken]
    simp only [pyIsdigit, Bool.and_eq_true, List.all_eq_true] at hd
    exact absurd (hd.2 '-' hmem) (by decide)

/-- A digits-only string does not contain `<`. -/
theorem pyIsdigit_no_lt (m : List Char) (hd : pyIsdigit m = true) : '<' ∉ m := by
  intro hmem
  simp only [pyIsdigit, Bool.and_eq_true, List.all_eq_true] at hd
  exact absurd (hd.2 '<' hmem) (by decide)

/-- A digits-only string is non-empty. -/
theorem pyIsdigit_ne_nil (m : List Char) (hd : pyIsdigit m = true) : m ≠ [] := by
  intro hnil
  rw [hnil] at hd
  simp [pyIsdigit] at hd

/-- Absence of the `-->` token in a line carries over to its stripped form. -/
theorem pyStrip_arrow_false {l : List Char} (h : pyIn arrowToken l = false) :
    pyIn arrowToken (pyStrip l) = false := by
  cases hx : pyIn arrowToken (pyStrip l)
  · rfl
  · obtain ⟨u, v, hm⟩ := pyStrip_mid l
    have ht := pyIn_of_mid hm hx
    rw [h] at ht
    exact ht.symm

/-! Claim theorems. -/

/-- C1: the claim says the escape entities are decoded, but the three
`replace` calls of the source replace each character by itself, so the
dialogue line `"5 &lt; 10 &amp; true"` is emitted unchanged instead of
becoming `"5 < 10 & true"`; this evaluation exhibits the divergence. -/
theorem C1_entity_decoding_code_eval :
    vtt_to_plaintext "00:00:01.000 --> 00:00:02.000\n5 &lt; 10 &amp; true" =
      "5 &lt; 10 &amp; true" ∧
    vtt_to_plaintext "00:00:01.000 --> 00:00:02.000\n5 &lt; 10 &amp; true" ≠
      "5 < 10 & true" := by
  constructor
  · decide
  · decide

/-- C2 (counterexample): on the plain document `"Hello"`, which has no
timestamp line and no digits-only line, the flattener returns the empty
string, not the trimmed newline-joined non-empty lines `"Hello"`. -/
theorem C2_counterexample :
    vtt_to_plaintext "Hello" = "" ∧ vtt_to_plaintext "Hello" ≠ "Hello" := by
  constructor
  · decide
  · decide

/-- C2 (amended): for every document with no line containing the `-->`
token and no digits-only line, `vtt_to_plaintext` returns the empty
string, because without a timestamp line the dialogue flag never becomes
true and every line is dropped. -/
theorem C2_plain_text_empty (s : String)
    (h : ∀ l ∈ pySplitlines s.data,
      pyIn arrowToken l = false ∧ pyIsdigit (pyStrip l) = false) :
    vtt_to_plaintext s = "" := by
  unfold vtt_to_plaintext
  rw [processLines_no_arrow _ (fun l hl => pyStrip_arrow_false (h l hl).1)]
  rfl

/-- C2 witness: a concrete plain document with no timestamp line. -/
theorem C2_witness : vtt_to_plaintext "WEBVTT\nKind: captions" = "" :=
  C2_plain_text_empty _ (by decide)

/-- C3: `vtt_to_plaintext` is total: on every input string it returns the
newline-join of a list of (non-empty) lines; nothing is partial and no
input is rejected. -/
theorem C3_totality (s : String) :
    ∃ ls : List (List Char),
      vtt_to_plaintext s = String.intercalate "\n" (ls.map (fun l => String.mk l)) ∧
      ∀ l ∈ ls, l ≠ [] :=
  ⟨processLines false (pySplitlines s.data), rfl, processLines_ne_nil _ _⟩

/-- C4: a blank (whitespace-only) input line always resets the dialogue
flag to false and emits nothing, and on the claim's concrete document the
standalone `"2"` after the blank line is dropped, giving `"Hello\nWorld"`. -/
theorem C4_blank_closes_dialogue :
    (∀ (st : Bool) (l : List Char), pyStrip l = [] → vttStep st l = (false, none)) ∧
    vtt_to_plaintext
      "1\n00:00:01.000 --> 00:00:02.000\nHello\n\n2\n00:00:03.000 --> 00:00:04.000\nWorld" =
      "Hello\nWorld" := by
  constructor
  · intro st l h
    exact vttStep_blank st l h
  · decide

/-- C4 witness: the blank-line rule applied to a concrete whitespace line
while the dialogue flag is set, plus the concrete document. -/
theorem C4_witness :
    vttStep true [' '] = (false, none) ∧
    vtt_to_plaintext
      "1\n00:00:01.000 --> 00:00:02.000\nHello\n\n2\n00:00:03.000 --> 00:00:04.000\nWorld" =
      "Hello\nWorld" :=
  ⟨C4_blank_closes_dialogue.1 true [' '] (by decide), C4_blank_closes_dialogue.2⟩

/-- C5: a trimmed digits-only line seen while the dialogue flag is true is
emitted as dialogue (the digit check only fires when the flag is false),
while outside a dialogue block it is dropped as a cue sequence number. -/
theorem C5_digits_inside_dialogue_kept :
    (∀ l : List Char, pyIsdigit (pyStrip l) = true →
      vttStep true l = (true, some (pyStrip l))) ∧
    (∀ l : List Char, pyIsdigit (pyStrip l) = true →
      vttStep false l = (false, none)) := by
  constructor
  · intro l hd
    have ha := pyIsdigit_no_arrow _ hd
    have hne := pyIsdigit_ne_nil _ hd
    have hclean : cleanLine (pyStrip l) = pyStrip l :=
      cleanLine_no_lt _ (pyIsdigit_no_lt _ hd)
    have hstep := vttStep_inD_emit l ha hne (by rw [hclean]; exact hne)
    rw [hclean] at hstep
    exact hstep
  · intro l hd
    exact vttStep_digit_noD l (pyIsdigit_no_arrow _ hd) hd

/-- C5 witness: the digits-only line `"42"` is kept inside a cue and
dropped outside one. -/
theorem C5_witness :
    vttStep true ['4', '2'] = (true, some ['4', '2']) ∧
    vttStep false ['4', '2'] = (false, none) :=
  ⟨C5_digits_inside_dialogue_kept.1 ['4', '2'] (by decide),
   C5_digits_inside_dialogue_kept.2 ['4', '2'] (by decide)⟩

/-- C6: after a single timestamp line, every following dialogue line up to
the next blank line is emitted (cleaned) under that one timing line in
source order, and the claim's concrete two-line cue yields
`"Line one\nLine two"`. -/
theorem C6_multiline_cue :
    (∀ (ts : List Char) (ls rest : List (List Char)),
      pyIn arrowToken (pyStrip ts) = true →
      (∀ l ∈ ls, pyIn arrowToken (pyStrip l) = false ∧ cleanLine (pyStrip l) ≠ []) →
      processLines false (ts :: (ls ++ [[]] ++ rest)) =
        ls.map (fun l => cleanLine (pyStrip l)) ++ processLines false rest) ∧
    vtt_to_plaintext "00:00:00.000 --> 00:00:05.000\nLine one\nLine two\n\n" =
      "Line one\nLine two" := by
  constructor
  · intro ts ls rest hts h
    have hstep := vttStep_arrow false ts hts
    have h2' : (vttStep false ts).2 = none := by rw [hstep]
    rw [processLines_cons_none _ _ _ h2', hstep]
    exact processLines_dialogue ls rest h
  · decide

/-- C6 witness: a concrete one-cue document processed by the general rule. -/
theorem C6_witness :
    processLines false (['-', '-', '>'] :: ([['H', 'i']] ++ [[]] ++ [])) =
      [['H', 'i']].map (fun l => cleanLine (pyStrip l)) ++ processLines false [] :=
  C6_multiline_cue.1 ['-', '-', '>'] [['H', 'i']] [] (by decide) (by decide)

/-- C7 (counterexample): tag removal can manufacture the `-->` token, so an
emitted line can contain it: on `"a --> b\n--<b>>"` the single emitted
line is exactly `"-->"`, refuting "no line containing `-->` is ever
emitted". -/
theorem C7_counterexample :
    processLines false (pySplitlines ("a --> b\n--<b>>".data)) = [['-', '-', '>']] ∧
    pyIn arrowToken ['-', '-', '>'] = true := by
  constructor
  · decide
  · decide

/-- C7 (amended): emitted lines keep the relative order of the input lines
they are cleaned from (they form a sublist of the per-line cleanups), no
emitted line is empty, and every emitted line derives from an input line
that does not contain the `-->` token (so no timestamp-range input line is
ever emitted as such, though cleaning may produce `-->` inside an emitted
line). -/
theorem C7_output_invariants (lines : List (List Char)) (inD : Bool) :
    (processLines inD lines).Sublist (lines.map (fun l => cleanLine (pyStrip l))) ∧
    (∀ out ∈ processLines inD lines, out ≠ []) ∧
    (∀ out ∈ processLines inD lines,
      ∃ src ∈ lines, out = cleanLine (pyStrip src) ∧
        pyIn arrowToken (pyStrip src) = false) :=
  ⟨processLines_sublist _ _, processLines_ne_nil _ _, processLines_src _ _⟩

/-- C7 witness: the non-emptiness invariant applied to a concrete run. -/
theorem C7_witness :
    ['H', 'i'] ∈ processLines true [['H', 'i']] ∧ ['H', 'i'] ≠ [] :=
  ⟨by decide, (C7_output_invariants [['H', 'i']] true).2.1 ['H', 'i'] (by decide)⟩

/-- C8 (counterexample): for a result with the empty-string title (which is
not `None`) and a "no subtitles" error, the endpoint answers 500, not 206:
the code tests Python truthiness of the title, not `is not None`. -/
theorem C8_counterexample :
    (YtResult.title ⟨some "", none, none, none,
      some "No subtitles available for the requested languages (RO/EN)."⟩ ≠ none) ∧
    detailsStatus ⟨some "", none, none, none,
      some "No subtitles available for the requested languages (RO/EN)."⟩ = 500 ∧
    detailsStatus ⟨some "", none, none, none,
      some "No subtitles available for the requested languages (RO/EN)."⟩ ≠ 206 := by
  refine ⟨by decide, by decide, by decide⟩

/-- C8 (amended): once validation passed, a result with a truthy
(non-`None`, non-empty) title and an error mentioning unavailable
subtitles or a missing transcript VTT file is answered with 206 and the
full result dictionary as body; a result with a (non-empty) error and no
title is answered with 500. -/
theorem C8_partial_content_status :
    (∀ (r : YtResult) (e : String), r.error = some e → e ≠ "" →
      pyTruthyStr r.title = true →
      (pyIn "No subtitles available".data e.data ||
        pyIn "Transcript VTT file not found".data e.data) = true →
      respondDetails r = (206, RouteBody.jsonResult r)) ∧
    (∀ (r : YtResult) (e : String), r.error = some e → e ≠ "" → r.title = none →
      respondDetails r = (500, RouteBody.jsonResult r)) := by
  constructor
  · intro r e herr hene ht hm
    unfold respondDetails detailsStatus
    rw [herr]
    have h1 : pyTruthyStr (some e) = true := by simp [pyTruthyStr, hene]
    simp [h1, ht, hm]
  · intro r e herr hene ht
    unfold respondDetails detailsStatus
    rw [herr, ht]
    simp [pyTruthyStr, hene]

/-- C8 witness: a concrete degraded result (title present, subtitles
missing) answered 206, and a concrete total failure answered 500. -/
theorem C8_witness :
    respondDetails ⟨some "T", some "C", none, none,
      some "No subtitles available for the requested languages (RO/EN)."⟩ =
      (206, RouteBody.jsonResult ⟨some "T", some "C", none, none,
        some "No subtitles available for the requested languages (RO/EN)."⟩) ∧
    respondDetails ⟨none, none, none, none, some "boom"⟩ =
      (500, RouteBody.jsonResult ⟨none, none, none, none, some "boom"⟩) :=
  ⟨C8_partial_content_status.1 _ _ rfl (by decide) (by decide) (by decide),
   C8_partial_content_status.2 _ _ rfl (by decide) rfl⟩

/-- C9: the URL validation lowercases the url and then looks for two
mixed-case literals, which can never occur in a lowercased string, so
every request with a non-empty url is answered 400 with the fixed
"Invalid URL" error and the fetch function is never consulted. -/
theorem C9_validation_rejects_all (url : String) (fetch : String → YtResult)
    (h : url ≠ "") :
    api_get_youtube_details_route (some url) fetch =
      (400, RouteBody.jsonError
        "Invalid URL; only YouTube URLs are supported by this endpoint.") := by
  simp [api_get_youtube_details_route, h, validateYoutubeUrl_false]

/-- C9 witness: even one of the hard-coded literal urls itself is rejected. -/
theorem C9_witness :
    api_get_youtube_details_route (some "https://www.youtube.com/watch?v=xqcl9dAAkC0")
      (fun _ => ⟨none, none, none, none, none⟩) =
      (400, RouteBody.jsonError
        "Invalid URL; only YouTube URLs are supported by this endpoint.") :=
  C9_validation_rejects_all _ _ (by decide)

/-- C10 (counterexample): for a negative `max_length` Python slicing keeps
a prefix computed from the end, so the claimed length bound fails: on
input `"ab"` with `max_length = -1` the result has length 1. -/
theorem C10_counterexample :
    ¬ ((sanitize_filename "ab".data (-1)).length : Int) ≤ (-1 : Int) := by
  decide

/-- C10 (amended): for every input string and every `max_length ≥ 0`,
`sanitize_filename` returns a string of length at most `max_length` whose
characters are all alphanumeric, `-` or `_`, with no two consecutive
underscores. -/
theorem C10_sanitize_invariants (name : String) (maxLength : Int)
    (h : 0 ≤ maxLength) :
    ((sanitize_filename name.data maxLength).length : Int) ≤ maxLength ∧
    (∀ c ∈ sanitize_filename name.data maxLength,
      (c.isAlphanum || c = '-' || c = '_') = true) ∧
    hasDoubleUnderscore (sanitize_filename name.data maxLength) = false :=
  ⟨sanitize_filename_length _ _ h, sanitize_filename_chars _ _,
   sanitize_filename_noDouble _ _⟩

/-- C10 witness: the invariants on a concrete messy filename. -/
theorem C10_witness :
    (0 : Int) ≤ 60 ∧
    ((sanitize_filename "My File: draft(2).txt".data 60).length : Int) ≤ 60 :=
  ⟨by decide, (C10_sanitize_invariants "My File: draft(2).txt" 60 (by decide)).1⟩
